import Mathlib

/-!
A verification development for the `cluster-bob` bag-of-features pipeline.

The program is embedded shallowly:

* an on-disk 1-d dataset is the list of its elements; a 2-d dataset is the
  list of its rows (slicing along the first axis never looks inside a row,
  so the row type is kept abstract);
* the external nearest-centroid capability (a flat index) is a structure
  holding the number of stored centroids (`ntotal`) and a deterministic
  per-vector assignment function returning a centroid id, with negative
  values acting as the "unassigned" sentinel;
* a Rust panic (out-of-range histogram write) and a propagated error are
  both modelled as `Except.error` carrying the diagnostic message;
* the external clustering capability is an abstract function `train`,
  and dataset reads that can fail return `Option`.
-/

namespace ClusterBob

variable {α : Type} {β : Type} {γ : Type}

/-- Modelled from the spec: the external dataset capability's sliced read
(`read_slice_1d`), returning the elements in positions `[lo, hi)`.  The
read fails when the requested slice is not inside the dataset's extent
(the source's batch reader expects its reads to be in range: it aborts
with "out of range" otherwise). -/
def read_slice_1d (dset : List α) (lo hi : Nat) : Option (List α) :=
  if lo ≤ hi ∧ hi ≤ dset.length then some ((dset.drop lo).take (hi - lo)) else none

/-- Modelled from the spec: the external dataset capability's sliced read
of rows `[lo, hi)` of a 2-d dataset (all columns).  On the row-list model
this is the same operation as `read_slice_1d`. -/
def read_slice_2d (dset : List α) (lo hi : Nat) : Option (List α) :=
  if lo ≤ hi ∧ hi ≤ dset.length then some ((dset.drop lo).take (hi - lo)) else none

/-- Modelled from the spec: the external dataset capability's full 2-d read. -/
def read_2d (dset : List α) : List α :=
  dset

/-- The external nearest-centroid capability (faiss flat index) after its
one-time bulk load: `ntotal` centroids, and a deterministic assignment of
one centroid id per query vector (negative = sentinel, "unassigned"). -/
structure FaissIndex (α : Type) where
  ntotal : Nat
  assignOne : α → Int

/-- Number of batches produced for `total` rows at batch size `batch_size`;
embeds the `nbatches` computation of `batched_1d`/`batched_2d`. -/
def nbatches (total batch_size : Nat) : Nat :=
  total / batch_size + (if total % batch_size > 0 then 1 else 0)

/-- Embeds `batched_1d`: chunk `i` is the slice `[i*B, min (i*B+B, total))`.
The source unwraps each read with an "out of range" expectation; the
default `[]` is never produced (`read_slice_in_range` below). -/
def batched_1d (dset : List α) (batch_size : Nat) : List (List α) :=
  (List.range (nbatches dset.length batch_size)).map (fun i =>
    (read_slice_1d dset (i * batch_size)
      (min (i * batch_size + batch_size) dset.length)).getD [])

/-- Embeds `batched_2d`: identical to `batched_1d` on the row-list model,
since the source slices whole rows (`s![lo..hi, ..]`). -/
def batched_2d (dset : List α) (batch_size : Nat) : List (List α) :=
  (List.range (nbatches dset.length batch_size)).map (fun i =>
    (read_slice_2d dset (i * batch_size)
      (min (i * batch_size + batch_size) dset.length)).getD [])

/-- Increment position `i` of a histogram row; `none` models the aborted
out-of-range write (`bows.get_mut([b]).unwrap_or_else(...)`). -/
def incAt (l : List Nat) (i : Nat) : Option (List Nat) :=
  if h : i < l.length then some (l.set i (l.get ⟨i, h⟩ + 1)) else none

/-- Increment cell `(i, j)` of a histogram matrix; `none` models the
aborted out-of-range write (`bows.get_mut((vol_id, b))`). -/
def incAt2 (m : List (List Nat)) (i j : Nat) : Option (List (List Nat)) :=
  if h : i < m.length then
    match incAt (m.get ⟨i, h⟩) j with
    | some row => some (m.set i row)
    | none => none
  else none

/-- Embeds the inner loop of `construct_bows_one`: fold a batch of centroid
ids into the single histogram row, skipping negative (sentinel) ids and
aborting with the source's panic message on an out-of-range id. -/
def accumLabelsOne (bows : List Nat) : List Int → Except String (List Nat)
  | [] => .ok bows
  | b :: rest =>
    if 0 ≤ b then
      match incAt bows b.toNat with
      | some bows2 => accumLabelsOne bows2 rest
      | none => .error ("invalid BoW index (" ++ toString b ++ ")")
    else accumLabelsOne bows rest

/-- Embeds the inner loop of `construct_bows`: fold a batch of
(centroid id, item id) pairs into the histogram matrix, skipping negative
(sentinel) centroid ids and aborting with the source's panic message on an
out-of-range write. -/
def accumLabels (bows : List (List Nat)) : List (Int × Nat) → Except String (List (List Nat))
  | [] => .ok bows
  | (b, volId) :: rest =>
    if 0 ≤ b then
      match incAt2 bows volId b.toNat with
      | some bows2 => accumLabels bows2 rest
      | none =>
        .error ("invalid BoW index (" ++ toString volId ++ ", " ++ toString b ++ ")")
    else accumLabels bows rest

/-- The batch loop of `construct_bows_one`: assign each feature batch
through the index and fold the resulting labels into the histogram row. -/
def accumBatchesOne (index : FaissIndex α) (bows : List Nat) :
    List (List α) → Except String (List Nat)
  | [] => .ok bows
  | batch :: rest =>
    match accumLabelsOne bows (batch.map index.assignOne) with
    | .ok bows2 => accumBatchesOne index bows2 rest
    | .error e => .error e

/-- The batch loop of `construct_bows`: each step receives one feature
batch zipped with one item-id batch, assigns the feature batch, zips the
labels with the item ids and folds the pairs into the histogram matrix. -/
def accumBatches (index : FaissIndex α) (bows : List (List Nat)) :
    List (List α × List Nat) → Except String (List (List Nat))
  | [] => .ok bows
  | (fb, ib) :: rest =>
    match accumLabels bows ((fb.map index.assignOne).zip ib) with
    | .ok bows2 => accumBatches index bows2 rest
    | .error e => .error e

/-- `construct_bows_one` with the batch size exposed as a parameter (the
source fixes `batch_size = 1024` locally; see `construct_bows_one`). -/
def construct_bows_one_with (batch_size : Nat) (features_dset : List α)
    (index : FaissIndex α) : Except String (List Nat) :=
  accumBatchesOne index (List.replicate index.ntotal 0)
    (batched_2d features_dset batch_size)

/-- Embeds `construct_bows_one`: a zero histogram row of length
`index.ntotal`, folded over the feature batches (batch size 1024). -/
def construct_bows_one (features_dset : List α) (index : FaissIndex α) :
    Except String (List Nat) :=
  construct_bows_one_with 1024 features_dset index

/-- `construct_bows` with the batch size exposed as a parameter (the
source fixes `batch_size = 1024` locally; see `construct_bows`).  The
feature batches and item-id batches are combined with `Iterator::zip`. -/
def construct_bows_with (batch_size : Nat) (features_dset : List α)
    (id_slice_dset : List Nat) (n_items : Nat) (index : FaissIndex α) :
    Except String (List (List Nat)) :=
  accumBatches index (List.replicate n_items (List.replicate index.ntotal 0))
    ((batched_2d features_dset batch_size).zip (batched_1d id_slice_dset batch_size))

/-- Embeds `construct_bows`: an `n_items × index.ntotal` zero histogram,
folded over the zipped feature/item-id batches (batch size 1024). -/
def construct_bows (features_dset : List α) (id_slice_dset : List Nat)
    (n_items : Nat) (index : FaissIndex α) : Except String (List (List Nat)) :=
  construct_bows_with 1024 features_dset id_slice_dset n_items index

/-- The reference histogram of the spec's refinement claim: one unbatched
fold over all (centroid id, item id) pairs in order (`List.zip` pairs the
assigned labels with the item ids). -/
def unbatched_bows (features : List α) (id_slice : List Nat) (n_items : Nat)
    (index : FaissIndex α) : Except String (List (List Nat)) :=
  accumLabels (List.replicate n_items (List.replicate index.ntotal 0))
    ((features.map index.assignOne).zip id_slice)

/-- Embeds the feature-loading step of `generate_vocabulary`
(`data.read_slice_2d(s![0..n, ..])` when a row limit is given, else
`data.read_2d()`), followed by the hand-off to the external clustering
capability `train`; any read failure propagates and clustering never
runs. -/
def generate_vocabulary (dset : List α) (n : Option Nat)
    (train : List α → Option β) : Option β :=
  match n with
  | some m =>
    match read_slice_2d dset 0 m with
    | some features => train features
    | none => none
  | none => train (read_2d dset)

/-- The output file of `generate_descriptors`: the histogram dataset
`data`, and — in multi-item mode only — the `item_id` and `item_name`
datasets. -/
structure BowsOutput where
  data : List (List Nat)
  item_id : Option (List Nat)
  item_name : Option (List String)
deriving DecidableEq, Repr

/-- Embeds the quantization orchestration of `generate_descriptors`:
single-item mode builds one histogram row (then `insert_axis` makes it a
1 × k matrix) and writes no item datasets; multi-item mode takes
`n_items` from the item-name dataset's length, builds the histogram,
writes the freshly generated sequential range `0..n_items` as `item_id`
(`n_items` re-read as the written histogram's row count) and copies the
item-name dataset verbatim. -/
def generate_descriptors (single_item : Bool) (features_dset : List α)
    (id_slice_dset : List Nat) (item_name_dset : List String)
    (index : FaissIndex α) : Except String BowsOutput :=
  if single_item then
    match construct_bows_one features_dset index with
    | .ok bows => .ok ⟨[bows], none, none⟩
    | .error e => .error e
  else
    match construct_bows features_dset id_slice_dset item_name_dset.length index with
    | .ok bows => .ok ⟨bows, some (List.range bows.length), some item_name_dset⟩
    | .error e => .error e

/-! ### Chunking: the batched readers seen structurally -/

/-- Structural view of the batched readers: successive groups of `B`
elements (the head group is written explicitly so the recursion
terminates for every `B`; for `B > 0` it is `take B`). -/
def chunksOf (B : Nat) : List α → List (List α)
  | [] => []
  | x :: xs => (x :: xs.take (B - 1)) :: chunksOf B (xs.drop (B - 1))
termination_by l => l.length
decreasing_by
  simp only [List.length_cons, List.length_drop]
  omega

theorem chunksOf_nil (B : Nat) : chunksOf B ([] : List α) = [] := by
  simp [chunksOf]

theorem chunksOf_cons_eq {B : Nat} (hB : 0 < B) (l : List α) (hl : l ≠ []) :
    chunksOf B l = l.take B :: chunksOf B (l.drop B) := by
  cases l with
  | nil => exact absurd rfl hl
  | cons x xs =>
    obtain ⟨C, rfl⟩ : ∃ C, B = C + 1 := ⟨B - 1, by omega⟩
    simp [chunksOf]

theorem read_slice_1d_of_le {dset : List α} {lo hi : Nat} (h1 : lo ≤ hi)
    (h2 : hi ≤ dset.length) :
    read_slice_1d dset lo hi = some ((dset.drop lo).take (hi - lo)) := by
  simp [read_slice_1d, h1, h2]

theorem mul_lt_of_lt_nbatches {B i M : Nat} (hB : 0 < B) (h : i < nbatches M B) :
    i * B < M := by
  unfold nbatches at h
  have hd : M / B * B + M % B = M := by
    rw [Nat.mul_comm]
    exact Nat.div_add_mod M B
  by_cases hm : M % B > 0
  · rw [if_pos hm] at h
    have hi : i ≤ M / B := by omega
    have := Nat.mul_le_mul_right B hi
    omega
  · rw [if_neg hm] at h
    have hi : i + 1 ≤ M / B := by omega
    have h1 := Nat.mul_le_mul_right B hi
    have h2 : (i + 1) * B = i * B + B := by ring
    omega

theorem nbatches_zero (B : Nat) : nbatches 0 B = 0 := by
  simp [nbatches]

theorem nbatches_succ {B M : Nat} (hB : 0 < B) (hM : 0 < M) :
    nbatches M B = nbatches (M - B) B + 1 := by
  rcases le_or_lt M B with h | h
  · have h0 : M - B = 0 := by omega
    rw [h0, nbatches_zero]
    rcases Nat.eq_or_lt_of_le h with rfl | hlt
    · simp [nbatches, Nat.div_self hB, Nat.mod_self]
    · simp [nbatches, Nat.div_eq_of_lt hlt, Nat.mod_eq_of_lt hlt, hM]
  · have hM2 : M - B + B = M := by omega
    unfold nbatches
    conv_lhs => rw [← hM2]
    rw [Nat.add_div_right _ hB, Nat.add_mod_right]
    omega

theorem batched_1d_nil {B : Nat} : batched_1d ([] : List α) B = [] := by
  simp [batched_1d, nbatches_zero]

theorem batched_1d_cons {B : Nat} (hB : 0 < B) (dset : List α) (hd : dset ≠ []) :
    batched_1d dset B = dset.take B :: batched_1d (dset.drop B) B := by
  have hL : 0 < dset.length := List.length_pos.mpr hd
  unfold batched_1d
  rw [List.length_drop, nbatches_succ hB hL, List.range_succ_eq_map,
    List.map_cons, List.map_map]
  congr 1
  · rw [Nat.zero_mul, Nat.zero_add,
      read_slice_1d_of_le (Nat.zero_le _) (Nat.min_le_right _ _),
      Option.getD_some, List.drop_zero, Nat.sub_zero]
    rcases le_total B dset.length with h | h
    · rw [Nat.min_eq_left h]
    · rw [Nat.min_eq_right h, List.take_of_length_le h,
        List.take_of_length_le (Nat.le_refl _)]
  · apply List.map_congr_left
    intro i hi
    have hi2 : i < nbatches (dset.length - B) B := List.mem_range.mp hi
    have ha : i * B < dset.length - B := mul_lt_of_lt_nbatches hB hi2
    have hBL : B < dset.length := by omega
    simp only [Function.comp, Nat.succ_eq_add_one]
    have hs : (i + 1) * B = i * B + B := by ring
    rw [hs]
    generalize i * B = a at ha
    rw [read_slice_1d_of_le (by omega) (Nat.min_le_right _ _),
      read_slice_1d_of_le (by omega : a ≤ min (a + B) (dset.length - B))
        (by rw [List.length_drop]; omega :
          min (a + B) (dset.length - B) ≤ (dset.drop B).length),
      Option.getD_some, Option.getD_some, List.drop_drop]
    have e1 : B + a = a + B := Nat.add_comm B a
    rw [e1]
    have e2 : min (a + B + B) dset.length - (a + B) =
        min (a + B) (dset.length - B) - a := by omega
    rw [e2]

theorem batched_1d_eq_chunksOf {B : Nat} (hB : 0 < B) :
    ∀ dset : List α, batched_1d dset B = chunksOf B dset
  | [] => by rw [batched_1d_nil, chunksOf_nil]
  | x :: xs => by
    have ih := batched_1d_eq_chunksOf hB (xs.drop (B - 1))
    have hdrop : (x :: xs).drop B = xs.drop (B - 1) := by
      obtain ⟨C, rfl⟩ : ∃ C, B = C + 1 := ⟨B - 1, by omega⟩
      simp
    rw [batched_1d_cons hB _ (List.cons_ne_nil x xs),
      chunksOf_cons_eq hB _ (List.cons_ne_nil x xs), hdrop, ih]
termination_by dset => dset.length
decreasing_by
  simp only [List.length_cons, List.length_drop]
  omega

theorem batched_2d_eq_batched_1d (dset : List α) (B : Nat) :
    batched_2d dset B = batched_1d dset B :=
  rfl

theorem chunksOf_flatten (B : Nat) : ∀ l : List α, (chunksOf B l).flatten = l
  | [] => by simp [chunksOf]
  | x :: xs => by
    have ih := chunksOf_flatten B (xs.drop (B - 1))
    simp only [chunksOf, List.flatten_cons, ih, List.cons_append,
      List.take_append_drop]
termination_by l => l.length
decreasing_by
  simp only [List.length_cons, List.length_drop]
  omega

theorem chunksOf_lengths {B : Nat} (hB : 0 < B) :
    ∀ l : List α,
      (chunksOf B l).map List.length =
        List.replicate (l.length / B) B ++
          (if l.length % B ≠ 0 then [l.length % B] else [])
  | [] => by simp [chunksOf_nil, Nat.zero_div, Nat.zero_mod]
  | x :: xs => by
    have ih := chunksOf_lengths hB (xs.drop (B - 1))
    have hdrop : (x :: xs).drop B = xs.drop (B - 1) := by
      obtain ⟨C, rfl⟩ : ∃ C, B = C + 1 := ⟨B - 1, by omega⟩
      simp
    rw [chunksOf_cons_eq hB _ (List.cons_ne_nil x xs), List.map_cons,
      List.length_take, hdrop, ih, List.length_drop, List.length_cons]
    generalize xs.length = M
    have hconv : M - (B - 1) = M + 1 - B := by omega
    rw [hconv]
    rcases le_or_lt (M + 1) B with h | h
    · have h0 : M + 1 - B = 0 := by omega
      rw [h0, Nat.zero_div, Nat.zero_mod, Nat.min_eq_right h]
      rcases Nat.eq_or_lt_of_le h with heq | hlt
      · rw [heq, Nat.div_self hB, Nat.mod_self]
        simp
      · rw [Nat.div_eq_of_lt hlt, Nat.mod_eq_of_lt hlt]
        simp
    · have hM2 : M + 1 - B + B = M + 1 := by omega
      have hdiv : (M + 1) / B = (M + 1 - B) / B + 1 := by
        conv_lhs => rw [← hM2]
        rw [Nat.add_div_right _ hB]
      have hmod : (M + 1) % B = (M + 1 - B) % B := by
        conv_lhs => rw [← hM2]
        rw [Nat.add_mod_right]
      rw [Nat.min_eq_left (le_of_lt h), hdiv, hmod, List.replicate_succ,
        List.cons_append]
termination_by l => l.length
decreasing_by
  simp only [List.length_cons, List.length_drop]
  omega

/-! ### Accumulator lemmas -/

theorem zip_take_take (l1 : List α) (l2 : List β) (n : Nat) :
    (l1.take n).zip (l2.take n) = (l1.zip l2).take n := by
  rw [List.zip_eq_zipWith, List.zip_eq_zipWith, List.take_zipWith]

theorem zip_drop_drop (l1 : List α) (l2 : List β) (n : Nat) :
    (l1.drop n).zip (l2.drop n) = (l1.zip l2).drop n := by
  rw [List.zip_eq_zipWith, List.zip_eq_zipWith, List.drop_zipWith]

theorem accumLabelsOne_append (bows : List Nat) (l1 l2 : List Int) :
    accumLabelsOne bows (l1 ++ l2) =
      match accumLabelsOne bows l1 with
      | .ok b => accumLabelsOne b l2
      | .error e => .error e := by
  induction l1 generalizing bows with
  | nil => simp [accumLabelsOne]
  | cons b rest ih =>
    simp only [List.cons_append, accumLabelsOne]
    by_cases hb : 0 ≤ b
    · simp only [if_pos hb]
      cases h : incAt bows b.toNat with
      | some bows2 => exact ih bows2
      | none => rfl
    · simp only [if_neg hb]
      exact ih bows

theorem accumLabels_append (bows : List (List Nat)) (l1 l2 : List (Int × Nat)) :
    accumLabels bows (l1 ++ l2) =
      match accumLabels bows l1 with
      | .ok b => accumLabels b l2
      | .error e => .error e := by
  induction l1 generalizing bows with
  | nil => simp [accumLabels]
  | cons p rest ih =>
    obtain ⟨b, volId⟩ := p
    simp only [List.cons_append, accumLabels]
    by_cases hb : 0 ≤ b
    · simp only [if_pos hb]
      cases h : incAt2 bows volId b.toNat with
      | some bows2 => exact ih bows2
      | none => rfl
    · simp only [if_neg hb]
      exact ih bows

/-- Folding the batched chunks through `accumBatchesOne` is the unbatched
fold of all labels, for every positive batch size. -/
theorem accumBatchesOne_chunksOf {B : Nat} (hB : 0 < B) (index : FaissIndex α) :
    ∀ (features : List α) (bows : List Nat),
      accumBatchesOne index bows (chunksOf B features) =
        accumLabelsOne bows (features.map index.assignOne)
  | [], bows => by simp [chunksOf_nil, accumBatchesOne, accumLabelsOne]
  | x :: xs, bows => by
    have ih := accumBatchesOne_chunksOf hB index (xs.drop (B - 1))
    have hdrop : (x :: xs).drop B = xs.drop (B - 1) := by
      obtain ⟨C, rfl⟩ : ∃ C, B = C + 1 := ⟨B - 1, by omega⟩
      simp
    rw [chunksOf_cons_eq hB _ (List.cons_ne_nil x xs), hdrop]
    conv_rhs => rw [← List.take_append_drop B ((x :: xs).map index.assignOne)]
    rw [accumLabelsOne_append]
    simp only [accumBatchesOne, ← List.map_take, ← List.map_drop, hdrop]
    cases h : accumLabelsOne bows (((x :: xs).take B).map index.assignOne) with
    | ok bows2 => exact ih bows2
    | error e => rfl
termination_by features => features.length
decreasing_by
  simp only [List.length_cons, List.length_drop]
  omega

/-- Folding the zipped batched chunks through `accumBatches` is the
unbatched fold of all (label, item id) pairs, for every positive batch
size and any pair of input lengths (`List.zip` truncates both the chunk
sequences and the final pair list to the shorter side). -/
theorem accumBatches_chunksOf {B : Nat} (hB : 0 < B) (index : FaissIndex α) :
    ∀ (features : List α) (ids : List Nat) (bows : List (List Nat)),
      accumBatches index bows ((chunksOf B features).zip (chunksOf B ids)) =
        accumLabels bows ((features.map index.assignOne).zip ids)
  | [], ids, bows => by simp [chunksOf_nil, accumBatches, accumLabels]
  | x :: xs, ids, bows => by
    have ih := accumBatches_chunksOf hB index (xs.drop (B - 1))
    have hdrop : (x :: xs).drop B = xs.drop (B - 1) := by
      obtain ⟨C, rfl⟩ : ∃ C, B = C + 1 := ⟨B - 1, by omega⟩
      simp
    cases ids with
    | nil => simp [chunksOf_nil, accumBatches, accumLabels]
    | cons y ys =>
      have hdropY : (y :: ys).drop B = ys.drop (B - 1) := by
        obtain ⟨C, rfl⟩ : ∃ C, B = C + 1 := ⟨B - 1, by omega⟩
        simp
      rw [chunksOf_cons_eq hB (x :: xs) (List.cons_ne_nil x xs),
        chunksOf_cons_eq hB (y :: ys) (List.cons_ne_nil y ys)]
      conv_rhs =>
        rw [← List.take_append_drop B (((x :: xs).map index.assignOne).zip (y :: ys))]
      rw [accumLabels_append]
      simp only [List.zip_cons_cons, accumBatches, ← zip_take_take, ← List.map_take,
        ← zip_drop_drop, ← List.map_drop, hdrop, hdropY]
      cases h :
          accumLabels bows
            ((((x :: xs).take B).map index.assignOne).zip ((y :: ys).take B)) with
      | ok bows2 => exact ih (ys.drop (B - 1)) bows2
      | error e => rfl
termination_by features => features.length
decreasing_by
  simp only [List.length_cons, List.length_drop]
  omega

/-! ### The construct functions, unbatched -/

/-- `construct_bows_one` at any positive batch size equals the unbatched
fold of all assigned labels. -/
theorem construct_bows_one_with_unbatched {B : Nat} (hB : 0 < B)
    (features : List α) (index : FaissIndex α) :
    construct_bows_one_with B features index =
      accumLabelsOne (List.replicate index.ntotal 0) (features.map index.assignOne) := by
  unfold construct_bows_one_with
  rw [batched_2d_eq_batched_1d, batched_1d_eq_chunksOf hB]
  exact accumBatchesOne_chunksOf hB index features _

/-- `construct_bows` at any positive batch size equals the unbatched fold
of all (label, item id) pairs. -/
theorem construct_bows_with_unbatched {B : Nat} (hB : 0 < B)
    (features : List α) (ids : List Nat) (n_items : Nat) (index : FaissIndex α) :
    construct_bows_with B features ids n_items index =
      unbatched_bows features ids n_items index := by
  unfold construct_bows_with unbatched_bows
  rw [batched_2d_eq_batched_1d, batched_1d_eq_chunksOf hB, batched_1d_eq_chunksOf hB]
  exact accumBatches_chunksOf hB index features ids _

/-! ### Counting lemmas -/

theorem sum_set_get : ∀ (l : List Nat) (i : Nat) (h : i < l.length),
    (l.set i (l.get ⟨i, h⟩ + 1)).sum = l.sum + 1
  | [], i, h => by simp at h
  | x :: xs, 0, h => by
    show ((x + 1) :: xs).sum = (x :: xs).sum + 1
    simp only [List.sum_cons]
    omega
  | x :: xs, j + 1, h => by
    have hj : j < xs.length := by simpa using h
    show (x :: xs.set j (xs.get ⟨j, hj⟩ + 1)).sum = (x :: xs).sum + 1
    rw [List.sum_cons, List.sum_cons, sum_set_get xs j hj]
    omega

theorem incAt_isSome {l : List Nat} {i : Nat} (h : i < l.length) :
    incAt l i = some (l.set i (l.get ⟨i, h⟩ + 1)) := by
  simp [incAt, h]

theorem incAt_eq_none {l : List Nat} {i : Nat} (h : l.length ≤ i) :
    incAt l i = none := by
  rw [incAt, dif_neg]
  omega

theorem incAt_eq_some {l l2 : List Nat} {i : Nat} (h : incAt l i = some l2) :
    l2.sum = l.sum + 1 ∧ l2.length = l.length := by
  rw [incAt] at h
  split at h
  case isTrue hi =>
    cases h
    exact ⟨sum_set_get l i hi, by simp⟩
  case isFalse hi => exact Option.noConfusion h

theorem incAt2_rowSum {m m2 : List (List Nat)} {i j : Nat}
    (h : incAt2 m i j = some m2) (i2 : Nat) :
    ((m2[i2]?).getD []).sum =
      ((m[i2]?).getD []).sum + (if i2 = i then 1 else 0) := by
  rw [incAt2] at h
  split at h
  case isTrue hi =>
    cases hrow : incAt (m.get ⟨i, hi⟩) j with
    | some row =>
      rw [hrow] at h
      cases h
      have hsum := (incAt_eq_some hrow).1
      by_cases hii : i2 = i
      · subst hii
        rw [List.getElem?_set_eq_of_lt row hi, if_pos rfl,
          List.getElem?_eq_getElem hi]
        simp only [Option.getD_some]
        have hg : m[i2] = m.get ⟨i2, hi⟩ := rfl
        rw [hg]
        omega
      · rw [List.getElem?_set_ne (fun he : i = i2 => hii he.symm), if_neg hii]
        omega
    | none =>
      rw [hrow] at h
      exact Option.noConfusion h
  case isFalse hi => exact Option.noConfusion h

theorem incAt2_length {m m2 : List (List Nat)} {i j : Nat}
    (h : incAt2 m i j = some m2) : m2.length = m.length := by
  rw [incAt2] at h
  split at h
  case isTrue hi =>
    cases hrow : incAt (m.get ⟨i, hi⟩) j with
    | some row =>
      rw [hrow] at h
      cases h
      simp
    | none =>
      rw [hrow] at h
      exact Option.noConfusion h
  case isFalse hi => exact Option.noConfusion h

theorem accumLabelsOne_sum :
    ∀ (labels : List Int) (bows bows2 : List Nat),
      accumLabelsOne bows labels = .ok bows2 →
      bows2.sum = bows.sum + labels.countP (fun b => decide (0 ≤ b))
  | [], bows, bows2, h => by
    simp only [accumLabelsOne, Except.ok.injEq] at h
    subst h
    simp
  | b :: rest, bows, bows2, h => by
    simp only [accumLabelsOne] at h
    rw [List.countP_cons]
    by_cases hb : 0 ≤ b
    · simp only [if_pos hb] at h
      cases hinc : incAt bows b.toNat with
      | some bows3 =>
        rw [hinc] at h
        have ih := accumLabelsOne_sum rest bows3 bows2 h
        have hsum := (incAt_eq_some hinc).1
        have hc : (if decide (0 ≤ b) then (1 : Nat) else 0) = 1 := by simp [hb]
        rw [hc]
        omega
      | none =>
        rw [hinc] at h
        exact Except.noConfusion h
    · simp only [if_neg hb] at h
      have ih := accumLabelsOne_sum rest bows bows2 h
      have hc : (if decide (0 ≤ b) then (1 : Nat) else 0) = 0 := by simp [hb]
      rw [hc]
      omega

theorem accumLabels_rowSum :
    ∀ (pairs : List (Int × Nat)) (bows bows2 : List (List Nat)),
      accumLabels bows pairs = .ok bows2 → ∀ i : Nat,
      ((bows2[i]?).getD []).sum =
        ((bows[i]?).getD []).sum +
          pairs.countP (fun p => decide (0 ≤ p.1) && decide (p.2 = i))
  | [], bows, bows2, h, i => by
    simp only [accumLabels, Except.ok.injEq] at h
    subst h
    simp
  | (b, vol) :: rest, bows, bows2, h, i => by
    simp only [accumLabels] at h
    rw [List.countP_cons]
    by_cases hb : 0 ≤ b
    · simp only [if_pos hb] at h
      cases hinc : incAt2 bows vol b.toNat with
      | some bows3 =>
        rw [hinc] at h
        have ih := accumLabels_rowSum rest bows3 bows2 h i
        have hrow := incAt2_rowSum hinc i
        by_cases hvi : vol = i
        · have hc : (if (decide (0 ≤ b) && decide (vol = i)) then (1 : Nat) else 0) = 1 := by
            simp [hb, hvi]
          have h2 : (if i = vol then (1 : Nat) else 0) = 1 := by
            rw [if_pos hvi.symm]
          rw [hc]
          omega
        · have hc : (if (decide (0 ≤ b) && decide (vol = i)) then (1 : Nat) else 0) = 0 := by
            simp [hvi]
          have h2 : (if i = vol then (1 : Nat) else 0) = 0 := by
            rw [if_neg (fun he : i = vol => hvi he.symm)]
          rw [hc]
          omega
      | none =>
        rw [hinc] at h
        exact Except.noConfusion h
    · simp only [if_neg hb] at h
      have ih := accumLabels_rowSum rest bows bows2 h i
      have hc : (if (decide (0 ≤ b) && decide (vol = i)) then (1 : Nat) else 0) = 0 := by
        simp [hb]
      rw [hc]
      omega

theorem accumLabels_length :
    ∀ (pairs : List (Int × Nat)) (bows bows2 : List (List Nat)),
      accumLabels bows pairs = .ok bows2 → bows2.length = bows.length
  | [], bows, bows2, h => by
    simp only [accumLabels, Except.ok.injEq] at h
    subst h
    rfl
  | (b, vol) :: rest, bows, bows2, h => by
    simp only [accumLabels] at h
    by_cases hb : 0 ≤ b
    · simp only [if_pos hb] at h
      cases hinc : incAt2 bows vol b.toNat with
      | some bows3 =>
        rw [hinc] at h
        rw [accumLabels_length rest bows3 bows2 h, incAt2_length hinc]
      | none =>
        rw [hinc] at h
        exact Except.noConfusion h
    · simp only [if_neg hb] at h
      exact accumLabels_length rest bows bows2 h

/-! ### Sentinel skipping -/

theorem accumLabelsOne_of_all_neg :
    ∀ (labels : List Int) (bows : List Nat),
      (∀ b ∈ labels, b < 0) → accumLabelsOne bows labels = .ok bows
  | [], _, _ => rfl
  | b :: rest, bows, h => by
    have hb : ¬ 0 ≤ b := by
      have := h b (List.mem_cons_self b rest)
      omega
    simp only [accumLabelsOne, if_neg hb]
    exact accumLabelsOne_of_all_neg rest bows
      (fun b2 hb2 => h b2 (List.mem_cons_of_mem _ hb2))

theorem accumLabels_of_all_neg :
    ∀ (pairs : List (Int × Nat)) (bows : List (List Nat)),
      (∀ p ∈ pairs, p.1 < 0) → accumLabels bows pairs = .ok bows
  | [], _, _ => rfl
  | (b, vol) :: rest, bows, h => by
    have hb : ¬ 0 ≤ b := by
      have := h (b, vol) (List.mem_cons_self (b, vol) rest)
      omega
    simp only [accumLabels, if_neg hb]
    exact accumLabels_of_all_neg rest bows
      (fun p hp => h p (List.mem_cons_of_mem _ hp))

/-! ### Well-formed histograms and bounds enforcement -/

/-- A histogram matrix of shape `(n, k)`. -/
def WF (n k : Nat) (m : List (List Nat)) : Prop :=
  m.length = n ∧ ∀ row ∈ m, row.length = k

theorem WF_replicate (n k : Nat) : WF n k (List.replicate n (List.replicate k 0)) := by
  constructor
  · simp
  · intro row hrow
    rw [List.eq_of_mem_replicate hrow]
    simp

theorem incAt2_ok_of_lt {n k : Nat} {m : List (List Nat)} (hWF : WF n k m)
    {vol j : Nat} (hv : vol < n) (hj : j < k) :
    ∃ m2, incAt2 m vol j = some m2 ∧ WF n k m2 := by
  obtain ⟨hlen, hrows⟩ := hWF
  have hv2 : vol < m.length := by omega
  have hrl : (m.get ⟨vol, hv2⟩).length = k := hrows _ (List.get_mem m _ _)
  have hj2 : j < (m.get ⟨vol, hv2⟩).length := by omega
  refine ⟨m.set vol ((m.get ⟨vol, hv2⟩).set j ((m.get ⟨vol, hv2⟩).get ⟨j, hj2⟩ + 1)),
    ?_, ?_, ?_⟩
  · rw [incAt2, dif_pos hv2, incAt_isSome hj2]
  · simp [hlen]
  · intro row hrow
    rcases List.mem_or_eq_of_mem_set hrow with h | h
    · exact hrows row h
    · subst h
      simp only [List.length_set]
      exact hrl

theorem incAt2_none_of_oob {n k : Nat} {m : List (List Nat)} (hWF : WF n k m)
    {vol j : Nat} (h : n ≤ vol ∨ k ≤ j) : incAt2 m vol j = none := by
  obtain ⟨hlen, hrows⟩ := hWF
  rcases h with h | h
  · rw [incAt2, dif_neg]
    omega
  · by_cases hv : vol < m.length
    · rw [incAt2, dif_pos hv]
      have hrl : (m.get ⟨vol, hv⟩).length = k := hrows _ (List.get_mem m _ _)
      rw [incAt_eq_none (by omega)]
    · rw [incAt2, dif_neg hv]

theorem accumLabels_ok_of_inBounds {n k : Nat} :
    ∀ (pairs : List (Int × Nat)) (m : List (List Nat)), WF n k m →
      (∀ p ∈ pairs, 0 ≤ p.1 → p.2 < n ∧ p.1.toNat < k) →
      ∃ m2, accumLabels m pairs = .ok m2 ∧ WF n k m2
  | [], m, hWF, _ => ⟨m, rfl, hWF⟩
  | (b, vol) :: rest, m, hWF, hin => by
    by_cases hb : 0 ≤ b
    · obtain ⟨hv, hj⟩ := hin (b, vol) (List.mem_cons_self (b, vol) rest) hb
      obtain ⟨m3, hm3, hWF3⟩ := incAt2_ok_of_lt hWF hv hj
      obtain ⟨m2, hm2, hWF2⟩ := accumLabels_ok_of_inBounds rest m3 hWF3
        (fun p hp => hin p (List.mem_cons_of_mem _ hp))
      refine ⟨m2, ?_, hWF2⟩
      simp only [accumLabels, if_pos hb, hm3]
      exact hm2
    · obtain ⟨m2, hm2, hWF2⟩ := accumLabels_ok_of_inBounds rest m hWF
        (fun p hp => hin p (List.mem_cons_of_mem _ hp))
      refine ⟨m2, ?_, hWF2⟩
      simp only [accumLabels, if_neg hb]
      exact hm2

/-! ### Concrete indices used in the closed checks -/

/-- A two-centroid index for concrete checks: `x mod 2`, with `5` mapped
to the sentinel. -/
def demoIndex : FaissIndex Nat :=
  ⟨2, fun x => if x = 5 then -1 else Int.ofNat (x % 2)⟩

/-- A one-centroid index assigning every vector to centroid `0`. -/
def zeroIndex : FaissIndex Nat :=
  ⟨1, fun _ => 0⟩

/-- An index assigning every vector the sentinel. -/
def negIndex : FaissIndex Nat :=
  ⟨1, fun _ => -1⟩

/-! ### The claims -/

/-- Claim C3: for every dataset of row count `L` and batch size `B > 0`,
the batched readers yield chunks that cover rows `0..L` exactly once in
original order (flattening returns the dataset), each chunk of length `B`
except the final one of length `L mod B` when that is nonzero, chunk
lengths summing to `L`, and no chunks at all when `L = 0`. -/
theorem batch_coverage {α : Type} (dset : List α) (B : Nat) (hB : 0 < B) :
    (batched_1d dset B).flatten = dset ∧
    (batched_2d dset B).flatten = dset ∧
    (batched_2d dset B).map List.length =
      List.replicate (dset.length / B) B ++
        (if dset.length % B ≠ 0 then [dset.length % B] else []) ∧
    ((batched_2d dset B).map List.length).sum = dset.length ∧
    (dset.length = 0 → batched_2d dset B = []) := by
  rw [batched_2d_eq_batched_1d, batched_1d_eq_chunksOf hB]
  refine ⟨chunksOf_flatten B dset, chunksOf_flatten B dset, chunksOf_lengths hB dset,
    ?_, ?_⟩
  · rw [← List.length_flatten, chunksOf_flatten B dset]
  · intro h0
    rw [List.eq_nil_of_length_eq_zero h0, chunksOf_nil]

/-- Closed check for `batch_coverage` at `dset = [10, 20, 30]`, `B = 2`. -/
theorem batch_coverage_witness :
    0 < 2 ∧ (batched_2d ([10, 20, 30] : List Nat) 2).flatten = [10, 20, 30] :=
  ⟨by decide, (batch_coverage [10, 20, 30] 2 (by decide)).2.1⟩

/-- Claim C1: histogram conservation.  Single-item mode: whenever
`construct_bows_one` succeeds, the sum of all histogram cells equals the
number of feature vectors whose assigned centroid id is non-negative.
Multi-item mode: whenever `construct_bows` succeeds on equal-length
inputs, the sum of row `i` equals the number of (label, item id) pairs
with item id `i` and a non-negative centroid id. -/
theorem histogram_conservation {α : Type} :
    (∀ (features : List α) (index : FaissIndex α) (bows : List Nat),
        construct_bows_one features index = .ok bows →
        bows.sum = (features.map index.assignOne).countP (fun b => decide (0 ≤ b))) ∧
    (∀ (features : List α) (ids : List Nat) (n_items : Nat) (index : FaissIndex α)
        (bows : List (List Nat)),
        features.length = ids.length →
        construct_bows features ids n_items index = .ok bows →
        ∀ i < n_items,
          ((bows[i]?).getD []).sum =
            ((features.map index.assignOne).zip ids).countP
              (fun p => decide (0 ≤ p.1) && decide (p.2 = i))) := by
  constructor
  · intro features index bows h
    rw [construct_bows_one, construct_bows_one_with_unbatched (by norm_num)] at h
    have := accumLabelsOne_sum _ _ _ h
    simpa using this
  · intro features ids n_items index bows hlen h i hi
    rw [construct_bows, construct_bows_with_unbatched (by norm_num)] at h
    have := accumLabels_rowSum _ _ _ h i
    rw [this]
    have hrep : ((List.replicate n_items (List.replicate index.ntotal 0))[i]?).getD []
        = List.replicate index.ntotal 0 := by
      rw [List.getElem?_replicate, if_pos hi]
      rfl
    rw [hrep]
    simp

/-- Closed check for `histogram_conservation` in both modes. -/
theorem histogram_conservation_witness :
    (construct_bows_one [0, 1, 5] demoIndex = .ok [1, 1] ∧
      ([1, 1] : List Nat).sum =
        ([0, 1, 5].map demoIndex.assignOne).countP (fun b => decide (0 ≤ b))) ∧
    (construct_bows [0, 1] [0, 1] 2 zeroIndex = .ok [[1], [1]] ∧
      ((([[1], [1]] : List (List Nat))[0]?).getD []).sum =
        (([0, 1].map zeroIndex.assignOne).zip [0, 1]).countP
          (fun p => decide (0 ≤ p.1) && decide (p.2 = 0))) :=
  ⟨⟨rfl, (histogram_conservation (α := Nat)).1 [0, 1, 5] demoIndex [1, 1] rfl⟩,
   ⟨rfl, (histogram_conservation (α := Nat)).2 [0, 1] [0, 1] 2 zeroIndex [[1], [1]]
      rfl rfl 0 (by decide)⟩⟩

/-- Claim C9 (refinement): at any batch size `B > 0`, the batched
accumulation over equal-length feature and item-id datasets equals the
single unbatched fold over all (centroid id, item id) pairs in order —
and the program's own batch size (1024) yields the same value, so the
result is independent of `B`. -/
theorem batch_size_invariance {α : Type} (B : Nat) (features : List α)
    (ids : List Nat) (n_items : Nat) (index : FaissIndex α)
    (hB : 0 < B) (_hlen : features.length = ids.length) :
    construct_bows_with B features ids n_items index =
      unbatched_bows features ids n_items index ∧
    construct_bows features ids n_items index =
      unbatched_bows features ids n_items index :=
  ⟨construct_bows_with_unbatched hB features ids n_items index,
   construct_bows_with_unbatched (by norm_num) features ids n_items index⟩

/-- Closed check for `batch_size_invariance` at `B = 2`. -/
theorem batch_size_invariance_witness :
    0 < 2 ∧ ([0, 1, 2] : List Nat).length = ([0, 0, 0] : List Nat).length ∧
    construct_bows_with 2 [0, 1, 2] [0, 0, 0] 1 zeroIndex =
      unbatched_bows [0, 1, 2] [0, 0, 0] 1 zeroIndex :=
  ⟨by decide, rfl,
   (batch_size_invariance 2 [0, 1, 2] [0, 0, 0] 1 zeroIndex (by decide) rfl).1⟩

/-- Claim C2 counterexample: the feature dataset `[0]` and the item-index
dataset `[]` imply different chunk counts (1 versus 0) at the program's
batch size, yet `construct_bows` succeeds — `Iterator::zip` stops at the
shorter chunk sequence instead of failing fatally. -/
theorem lockstep_mismatch_counterexample :
    nbatches ([0] : List Nat).length 1024 ≠ nbatches ([] : List Nat).length 1024 ∧
    construct_bows ([0] : List Nat) ([] : List Nat) 1 zeroIndex = .ok [[0]] :=
  ⟨by decide, rfl⟩

/-- Claim C2 (amended): the feature and item-index batches are consumed
in lock-step with the same batch size, but a chunk-count mismatch is
silently tolerated — the run equals the unbatched fold over
`List.zip labels ids`, which stops after the shorter sequence, and no
error is raised because of the mismatch. -/
theorem lockstep_zip_truncation {α : Type} (features : List α) (ids : List Nat)
    (n_items : Nat) (index : FaissIndex α) :
    construct_bows features ids n_items index =
      accumLabels (List.replicate n_items (List.replicate index.ntotal 0))
        ((features.map index.assignOne).zip ids) :=
  construct_bows_with_unbatched (by norm_num) features ids n_items index

/-- Claim C4: in multi-item accumulation over a well-formed `(n, k)`
histogram, when the fold reaches a pair with a non-sentinel centroid id
whose item id is `≥ n` or whose centroid id is `≥ k`, it aborts with the
source's diagnostic naming the offending indices, and returns no
histogram (the out-of-bounds pair is neither clamped nor dropped). -/
theorem bounds_enforcement {n k : Nat} (bows : List (List Nat)) (hWF : WF n k bows)
    (pre : List (Int × Nat)) (b : Int) (vol : Nat) (rest : List (Int × Nat))
    (hpre : ∀ p ∈ pre, 0 ≤ p.1 → p.2 < n ∧ p.1.toNat < k)
    (hb : 0 ≤ b) (hoob : n ≤ vol ∨ k ≤ b.toNat) :
    accumLabels bows (pre ++ (b, vol) :: rest) =
      .error ("invalid BoW index (" ++ toString vol ++ ", " ++ toString b ++ ")") := by
  obtain ⟨m2, hm2, hWF2⟩ := accumLabels_ok_of_inBounds pre bows hWF hpre
  rw [accumLabels_append, hm2]
  simp only [accumLabels, if_pos hb, incAt2_none_of_oob hWF2 hoob]

/-- Closed check for `bounds_enforcement`: item id 5 against a 1 × 1
histogram. -/
theorem bounds_enforcement_witness :
    accumLabels [[0]] ([] ++ ((0 : Int), 5) :: []) =
      .error ("invalid BoW index (" ++ toString (5 : Nat) ++ ", " ++
        toString (0 : Int) ++ ")") :=
  bounds_enforcement (n := 1) (k := 1) [[0]] ⟨rfl, by decide⟩ [] 0 5 []
    (by intro p hp; cases hp) (by decide) (Or.inl (by decide))

/-- Claim C5: a sentinel (negative) centroid id is skipped by both
accumulators — it increments no cell and raises no error — and a run in
which every assignment is the sentinel leaves the histogram all zeros,
in both single-item and multi-item modes. -/
theorem sentinel_skip {α : Type} :
    (∀ (bows : List Nat) (b : Int) (rest : List Int), b < 0 →
        accumLabelsOne bows (b :: rest) = accumLabelsOne bows rest) ∧
    (∀ (bows : List (List Nat)) (b : Int) (vol : Nat) (rest : List (Int × Nat)),
        b < 0 →
        accumLabels bows ((b, vol) :: rest) = accumLabels bows rest) ∧
    (∀ (features : List α) (index : FaissIndex α),
        (∀ v, index.assignOne v < 0) →
        construct_bows_one features index = .ok (List.replicate index.ntotal 0)) ∧
    (∀ (features : List α) (ids : List Nat) (n_items : Nat) (index : FaissIndex α),
        (∀ v, index.assignOne v < 0) →
        construct_bows features ids n_items index =
          .ok (List.replicate n_items (List.replicate index.ntotal 0))) := by
  refine ⟨?_, ?_, ?_, ?_⟩
  · intro bows b rest hb
    simp only [accumLabelsOne, if_neg (by omega : ¬ 0 ≤ b)]
  · intro bows b vol rest hb
    simp only [accumLabels, if_neg (by omega : ¬ 0 ≤ b)]
  · intro features index hneg
    rw [construct_bows_one, construct_bows_one_with_unbatched (by norm_num)]
    apply accumLabelsOne_of_all_neg
    intro b hb
    obtain ⟨v, _, rfl⟩ := List.mem_map.mp hb
    exact hneg v
  · intro features ids n_items index hneg
    rw [construct_bows, construct_bows_with_unbatched (by norm_num)]
    apply accumLabels_of_all_neg
    intro p hp
    obtain ⟨b, vol⟩ := p
    obtain ⟨hp1, _⟩ := List.of_mem_zip hp
    obtain ⟨v, _, hv⟩ := List.mem_map.mp hp1
    exact hv ▸ hneg v

/-- Closed check for `sentinel_skip` with the all-sentinel index. -/
theorem sentinel_skip_witness :
    accumLabelsOne [0] [-1] = accumLabelsOne [0] [] ∧
    accumLabels [[0]] [(-1, 0)] = accumLabels [[0]] [] ∧
    construct_bows_one [0, 1] negIndex = .ok (List.replicate negIndex.ntotal 0) ∧
    construct_bows [0, 1] [0, 0] 1 negIndex =
      .ok (List.replicate 1 (List.replicate negIndex.ntotal 0)) :=
  ⟨(sentinel_skip (α := Nat)).1 [0] (-1) [] (by decide),
   (sentinel_skip (α := Nat)).2.1 [[0]] (-1) 0 [] (by decide),
   (sentinel_skip (α := Nat)).2.2.1 [0, 1] negIndex
      (fun _ => by show (-1 : Int) < 0; decide),
   (sentinel_skip (α := Nat)).2.2.2 [0, 1] [0, 0] 1 negIndex
      (fun _ => by show (-1 : Int) < 0; decide)⟩

/-- Claim C6: a zero-row feature dataset is not an error — both
accumulation paths succeed with an all-zero histogram, and the
orchestrated outputs are a single row of `k` zeros (single-item) or an
`(n_items, k)` zero matrix (multi-item). -/
theorem empty_input {α : Type} (index : FaissIndex α) (ids : List Nat)
    (item_names : List String) :
    construct_bows_one ([] : List α) index = .ok (List.replicate index.ntotal 0) ∧
    (∀ n_items : Nat,
      construct_bows ([] : List α) ids n_items index =
        .ok (List.replicate n_items (List.replicate index.ntotal 0))) ∧
    generate_descriptors true ([] : List α) ids item_names index =
      .ok ⟨[List.replicate index.ntotal 0], none, none⟩ ∧
    generate_descriptors false ([] : List α) ids item_names index =
      .ok ⟨List.replicate item_names.length (List.replicate index.ntotal 0),
        some (List.range item_names.length), some item_names⟩ := by
  have h1 : construct_bows_one ([] : List α) index =
      .ok (List.replicate index.ntotal 0) := by
    rw [construct_bows_one, construct_bows_one_with, batched_2d_eq_batched_1d,
      batched_1d_nil]
    rfl
  have h2 : ∀ n_items : Nat,
      construct_bows ([] : List α) ids n_items index =
        .ok (List.replicate n_items (List.replicate index.ntotal 0)) := by
    intro n_items
    rw [construct_bows, construct_bows_with, batched_2d_eq_batched_1d,
      batched_1d_nil]
    rfl
  refine ⟨h1, h2, ?_, ?_⟩
  · rw [generate_descriptors, if_pos rfl, h1]
  · rw [generate_descriptors, if_neg (by simp), h2 item_names.length]
    simp

/-- Claim C7: in multi-item mode the persisted item-index dataset is the
sequential range `0, 1, ..., n_items - 1` where `n_items` is the
item-name dataset's length — independent of the input item-index values —
and the persisted item-name dataset is the verbatim input; in single-item
mode neither dataset is written. -/
theorem output_reindexing {α : Type} :
    (∀ (features : List α) (ids : List Nat) (item_names : List String)
        (index : FaissIndex α) (out : BowsOutput),
        generate_descriptors false features ids item_names index = .ok out →
        out.item_id = some (List.range item_names.length) ∧
        out.item_name = some item_names) ∧
    (∀ (features : List α) (ids : List Nat) (item_names : List String)
        (index : FaissIndex α) (out : BowsOutput),
        generate_descriptors true features ids item_names index = .ok out →
        out.item_id = none ∧ out.item_name = none) := by
  constructor
  · intro features ids item_names index out h
    rw [generate_descriptors, if_neg (by simp)] at h
    cases hc : construct_bows features ids item_names.length index with
    | ok bows =>
      rw [hc] at h
      cases h
      have hlen : bows.length = item_names.length := by
        rw [construct_bows, construct_bows_with_unbatched (by norm_num),
          unbatched_bows] at hc
        rw [accumLabels_length _ _ _ hc, List.length_replicate]
      rw [hlen]
      exact ⟨rfl, rfl⟩
    | error e =>
      rw [hc] at h
      exact Except.noConfusion h
  · intro features ids item_names index out h
    rw [generate_descriptors, if_pos rfl] at h
    cases hc : construct_bows_one features index with
    | ok bows =>
      rw [hc] at h
      cases h
      exact ⟨rfl, rfl⟩
    | error e =>
      rw [hc] at h
      exact Except.noConfusion h

/-- Closed check for `output_reindexing` in both modes. -/
theorem output_reindexing_witness :
    ((⟨[[1]], some [0], some ["a"]⟩ : BowsOutput).item_id =
        some (List.range ["a"].length) ∧
      (⟨[[1]], some [0], some ["a"]⟩ : BowsOutput).item_name = some ["a"]) ∧
    ((⟨[[2]], none, none⟩ : BowsOutput).item_id = none ∧
      (⟨[[2]], none, none⟩ : BowsOutput).item_name = none) :=
  ⟨(output_reindexing (α := Nat)).1 [0] [0] ["a"] zeroIndex
      ⟨[[1]], some [0], some ["a"]⟩ rfl,
   (output_reindexing (α := Nat)).2 [0, 1] [] [] zeroIndex
      ⟨[[2]], none, none⟩ rfl⟩

/-- Claim C8: when a row limit `N` (within the dataset) is given, the
feature matrix handed to the clustering capability is exactly the first
`N` rows in original order; with no limit, the entire dataset is used. -/
theorem training_truncation {α : Type} {β : Type} (dset : List α) (N : Nat)
    (train : List α → Option β) (hN : N ≤ dset.length) :
    generate_vocabulary dset (some N) train = train (dset.take N) ∧
    generate_vocabulary dset none train = train dset := by
  constructor
  · unfold generate_vocabulary
    simp only [read_slice_2d]
    rw [if_pos ⟨Nat.zero_le N, hN⟩, List.drop_zero, Nat.sub_zero]
  · rfl

/-- Closed check for `training_truncation` at `N = 2` on three rows. -/
theorem training_truncation_witness :
    2 ≤ ([1, 2, 3] : List Nat).length ∧
    (generate_vocabulary [1, 2, 3] (some 2) some = some ([1, 2, 3].take 2) ∧
      generate_vocabulary [1, 2, 3] none some = some [1, 2, 3]) :=
  ⟨by decide, training_truncation [1, 2, 3] 2 some (by decide)⟩

/-- Claim C10: when the row limit `N` exceeds the feature dataset's row
count, the sliced read of rows `0..N` fails and the run aborts with that
error before any clustering runs (the result is `none` for every possible
clustering function — the limit is never clamped). -/
theorem oversized_limit_errors {α : Type} {β : Type} (dset : List α) (N : Nat)
    (train : List α → Option β) (hN : dset.length < N) :
    generate_vocabulary dset (some N) train = none := by
  unfold generate_vocabulary
  simp only [read_slice_2d]
  rw [if_neg (by omega : ¬(0 ≤ N ∧ N ≤ dset.length))]

/-- Closed check for `oversized_limit_errors`: limit 5 on one row. -/
theorem oversized_limit_errors_witness :
    ([1] : List Nat).length < 5 ∧
    generate_vocabulary ([1] : List Nat) (some 5)
      (some : List Nat → Option (List Nat)) = none :=
  ⟨by decide, oversized_limit_errors [1] 5 some (by decide)⟩

end ClusterBob
